import Mathlib

/-!
Shallow embedding of the admission-and-scheduling core of the repository
(`src/src/utils/buildQueue.js`, class `BuildQueue`) together with proofs of
the specified properties.

Modelling conventions:
* `chatId` (submitter identity) is a `Nat`; the JS `Map` `this.activeBuilds`
  is an insertion-ordered association list `List (Nat × Build)` (a `Map` holds
  at most one entry per key; `findA` returns the first binding, `eraseA`
  removes the bindings of a key, which on the duplicate-free lists produced by
  the code coincides with `Map.delete`).
* `Date.now()` is replaced by an explicit `now : Nat` argument (milliseconds).
  JS `now - startTime` on a monotone clock is `Nat` subtraction.
* The asynchronous `onBuildStart` callback is modelled by an oracle
  `cbOk : Nat → Bool`: `cbOk c = true` means the registered callback exists
  and returns normally for chat `c`; `false` means it is missing or throws,
  in which case `processNext` performs `release(c, false)` exactly as the
  source does.  `notifyQueueUpdates`, logging and message strings do not
  change scheduler state and are omitted.
* `this.save()` / `this.load()` write and read the persisted document; they
  never change the in-memory scheduler state (write errors are swallowed), so
  persistence is modelled by the pure functions `save` and `load` over a
  `PersistedDoc`; a missing or unparsable file is `Option.none`.
* `processNext` recurses (through `release`) only after removing the queue
  head, so its recursion depth is bounded by the queue length; it is embedded
  with structural fuel initialised to the queue length
  (`processNextAux_fuel_irrelevant` certifies the fuel choice is inert).
-/

/-- One pending request in the admission queue
(`{id, chatId, userName, buildData, type, priority, addedAt, status}`). -/
structure QueueItem where
  id : String
  chatId : Nat
  userName : String
  buildData : Nat
  type : String
  priority : Bool
  addedAt : Nat
  status : String
deriving DecidableEq, Repr

/-- Metadata of one active build (`this.activeBuilds` map values). -/
structure Build where
  startTime : Nat
  lastActivity : Nat
  buildData : Nat
  type : String
  userName : String
deriving DecidableEq, Repr

/-- The statistics counters (`this.stats`). -/
structure Stats where
  success : Nat
  failed : Nat
  total : Nat
  totalTime : Nat
deriving DecidableEq, Repr

/-- The in-memory scheduler state of a `BuildQueue` instance. -/
structure QState where
  maxConcurrent : Nat
  adminIds : List Nat
  queue : List QueueItem
  activeBuilds : List (Nat × Build)
  stats : Stats
deriving DecidableEq, Repr

/-- `this.MAX_BUILD_TIME = 45 * 60 * 1000`. -/
def MAX_BUILD_TIME : Nat := 45 * 60 * 1000

/-- `this.INACTIVITY_TIMEOUT = 10 * 60 * 1000`. -/
def INACTIVITY_TIMEOUT : Nat := 10 * 60 * 1000

/-- `Map.get`: first binding of key `k` (the only one on duplicate-free maps). -/
def findA (m : List (Nat × Build)) (k : Nat) : Option Build :=
  match m with
  | [] => none
  | p :: rest => if p.1 = k then some p.2 else findA rest k

/-- `Map.delete`: drop the bindings of key `k`. -/
def eraseA (m : List (Nat × Build)) (k : Nat) : List (Nat × Build) :=
  match m with
  | [] => []
  | p :: rest => if p.1 = k then eraseA rest k else p :: eraseA rest k

/-- `isAdmin(chatId)`: membership in the admin allow-list. -/
def isAdmin (st : QState) (c : Nat) : Bool :=
  st.adminIds.contains c

/-- `isBusy()`: `this.activeBuilds.size >= this.maxConcurrent`. -/
def isBusy (st : QState) : Bool :=
  decide (st.maxConcurrent ≤ st.activeBuilds.length)

/-- `hasActiveBuild(chatId)` / `this.activeBuilds.has(chatId)`. -/
def hasActive (st : QState) (c : Nat) : Bool :=
  (findA st.activeBuilds c).isSome

/-- `removeFromQueue`'s queue mutation: `splice` out the first entry with the
given `chatId` (`findIndex` + `splice(index, 1)`). -/
def removeFirst (q : List QueueItem) (c : Nat) : List QueueItem :=
  match q with
  | [] => []
  | i :: rest => if i.chatId = c then rest else i :: removeFirst rest c

/-- The priority insertion loop of `addToQueue`: scan from the front, insert
immediately before the first non-priority entry (at the end if none). -/
def insertPriority (q : List QueueItem) (item : QueueItem) : List QueueItem :=
  match q with
  | [] => [item]
  | x :: rest => if x.priority then x :: insertPriority rest item else item :: x :: rest

/-- `acquire(chatId, buildData, type, userName)`: fails if the identity is
already active or the registry is at capacity, else inserts an `ActiveJob`
with `startTime = lastActivity = now`.  Returns `(acquired, newState)`. -/
def acquire (st : QState) (c bd : Nat) (ty un : String) (now : Nat) : Bool × QState :=
  if hasActive st c then (false, st)
  else if st.maxConcurrent ≤ st.activeBuilds.length then (false, st)
  else (true, { st with activeBuilds := st.activeBuilds ++ [(c, Build.mk now now bd ty un)] })

/-- The statistics-and-registry part of `release` (everything before the final
`this.processNext()` call): compute `duration = now - startTime`, update the
counters, delete the `ActiveJob`.  No-op when the identity is not active. -/
def releaseCore (now : Nat) (st : QState) (c : Nat) (success : Bool) : QState :=
  match findA st.activeBuilds c with
  | none => st
  | some b =>
    let duration := now - b.startTime
    let newStats :=
      if success then
        { st.stats with success := st.stats.success + 1,
                        totalTime := st.stats.totalTime + duration }
      else { st.stats with failed := st.stats.failed + 1 }
    { st with stats := newStats, activeBuilds := eraseA st.activeBuilds c }

/-- `processNext()`, with structural fuel: return if the queue is empty or the
registry is busy; otherwise `shift` the head, try to `acquire` for it; on
failure `unshift` it back (restoring the original queue) and return; on
success hand the job to the start callback, and if the callback is missing or
throws, `release(chatId, false)` — whose trailing `processNext()` is the
recursive call. -/
def processNextAux (cbOk : Nat → Bool) (now : Nat) : Nat → QState → QState
  | 0, st => st
  | fuel + 1, st =>
    match st.queue with
    | [] => st
    | nextBuild :: rest =>
      if isBusy st then st
      else
        let r := acquire { st with queue := rest } nextBuild.chatId nextBuild.buildData
          nextBuild.type nextBuild.userName now
        if r.1 then
          if cbOk nextBuild.chatId then r.2
          else processNextAux cbOk now fuel (releaseCore now r.2 nextBuild.chatId false)
        else st

/-- `processNext()`: the fuel is the queue length, which strictly bounds the
recursion depth (each recursive call happens after the head was dequeued). -/
def processNext (cbOk : Nat → Bool) (now : Nat) (st : QState) : QState :=
  processNextAux cbOk now st.queue.length st

/-- `release(chatId, success)`: warn-and-return when the identity is not
active, otherwise update statistics, free the slot and call `processNext()`
exactly once. -/
def release (cbOk : Nat → Bool) (now : Nat) (st : QState) (c : Nat) (success : Bool) : QState :=
  match findA st.activeBuilds c with
  | none => st
  | some _ => processNext cbOk now (releaseCore now st c success)

/-- The id template `` `build_${Date.now()}_${chatId}` ``. -/
def mkBuildId (now c : Nat) : String :=
  "build_" ++ toString now ++ "_" ++ toString c

/-- The queue item literal constructed by `addToQueue`. -/
def mkQueueItem (now c bd : Nat) (ty un : String) (isPriority : Bool) : QueueItem :=
  { id := mkBuildId now c, chatId := c, userName := un, buildData := bd,
    type := ty, priority := isPriority, addedAt := now, status := "waiting" }

/-- `getUserPosition(chatId)`: 1-based index in the queue, `0` if absent. -/
def posIdx (q : List QueueItem) (c : Nat) : Option Nat :=
  match q with
  | [] => none
  | i :: rest => if i.chatId = c then some 0 else (posIdx rest c).map (· + 1)

/-- `getUserPosition(chatId)`. -/
def getUserPosition (st : QState) (c : Nat) : Nat :=
  match posIdx st.queue c with
  | some i => i + 1
  | none => 0

/-- `getEstimatedWait(position)`: average success duration in minutes
(`Math.round(totalTime / success / 1000 / 60)`, fallback `3`), then
`Math.max(1, Math.ceil(waitPosition * avgTime / maxConcurrent))` where
`waitPosition = Math.max(0, position - (maxConcurrent - activeBuilds.size))`.
JS number division is modelled exactly over `ℚ`. -/
def getEstimatedWait (st : QState) (position : Nat) : Int :=
  let avgTime : Int :=
    if 0 < st.stats.success then
      round ((st.stats.totalTime : ℚ) / (st.stats.success : ℚ) / 1000 / 60)
    else 3
  let waitPosition : Int :=
    max 0 ((position : Int) - ((st.maxConcurrent : Int) - (st.activeBuilds.length : Int)))
  max 1 (Int.ceil (((waitPosition : ℚ) * (avgTime : ℚ)) / (st.maxConcurrent : ℚ)))

/-- The result record of `addToQueue` (notification strings omitted;
`estimatedWait` is absent on the immediate path). -/
structure AddResult where
  queued : Bool
  position : Nat
  immediate : Bool
  estimatedWait : Option Int
deriving DecidableEq, Repr

/-- The enqueue tail of `addToQueue`: build the queue item, insert it by
priority (priority before the first non-priority entry, otherwise `push`),
and report position and estimated wait. -/
def enqueueItem (st : QState) (c bd : Nat) (ty un : String) (now : Nat)
    (isPriority : Bool) : AddResult × QState :=
  let queueItem := mkQueueItem now c bd ty un isPriority
  let newQueue :=
    if isPriority then insertPriority st.queue queueItem else st.queue ++ [queueItem]
  let st1 := { st with queue := newQueue }
  let position := getUserPosition st1 c
  ({ queued := true, position := position, immediate := false,
     estimatedWait := some (getEstimatedWait st1 position) }, st1)

/-- `addToQueue(chatId, buildData, type, userName)`: withdraw any pending
request of the same identity, bump `stats.total`, and either start
immediately (when not busy and not already active) or enqueue by priority. -/
def addToQueue (st : QState) (c bd : Nat) (ty un : String) (now : Nat) :
    AddResult × QState :=
  let st1 := { st with queue := removeFirst st.queue c }
  let st2 := { st1 with stats := { st1.stats with total := st1.stats.total + 1 } }
  let isPriority := isAdmin st2 c
  if isBusy st2 = false ∧ hasActive st2 c = false then
    let r := acquire st2 c bd ty un now
    if r.1 then
      ({ queued := true, position := 0, immediate := true, estimatedWait := none }, r.2)
    else enqueueItem st2 c bd ty un now isPriority
  else enqueueItem st2 c bd ty un now isPriority

/-- `checkStuckBuilds`'s per-build flag: total time over `MAX_BUILD_TIME`, or
inactivity (`now - (lastActivity || startTime)`) over `INACTIVITY_TIMEOUT`. -/
def isStuck (now : Nat) (b : Build) : Bool :=
  decide (MAX_BUILD_TIME < now - b.startTime) ||
  decide (INACTIVITY_TIMEOUT <
    now - (if b.lastActivity = 0 then b.startTime else b.lastActivity))

/-- `checkStuckBuilds()`: scan the registry collecting stuck builds, then
release each collected build with `success = false` after the scan. -/
def checkStuckBuilds (cbOk : Nat → Bool) (now : Nat) (st : QState) : QState :=
  if st.activeBuilds.length = 0 then st
  else
    let toRelease := st.activeBuilds.filter (fun p => isStuck now p.2)
    toRelease.foldl (fun s p => release cbOk now s p.1 false) st

/-- `updateActivity(chatId)`: refresh `lastActivity` of one active build, or
of all of them when no (truthy) id is given or the id is not active. -/
def updateActivity (st : QState) (c : Option Nat) (now : Nat) : QState :=
  match c with
  | some cid =>
    if cid ≠ 0 ∧ hasActive st cid = true then
      { st with activeBuilds :=
          st.activeBuilds.map (fun p =>
            if p.1 = cid then (p.1, { p.2 with lastActivity := now }) else p) }
    else
      { st with activeBuilds := st.activeBuilds.map (fun p => (p.1, { p.2 with lastActivity := now })) }
  | none =>
    { st with activeBuilds := st.activeBuilds.map (fun p => (p.1, { p.2 with lastActivity := now })) }

/-- `forceRelease(chatId)`: delete one active build (statistics untouched) and
`processNext()`; with no truthy id, clear the whole registry and
`processNext()`. -/
def forceRelease (cbOk : Nat → Bool) (now : Nat) (st : QState) (c : Option Nat) : QState :=
  match c with
  | some cid =>
    if cid ≠ 0 then
      if hasActive st cid = true then
        processNext cbOk now { st with activeBuilds := eraseA st.activeBuilds cid }
      else st
    else processNext cbOk now { st with activeBuilds := [] }
  | none => processNext cbOk now { st with activeBuilds := [] }

/-- `clearQueue()` (state change only; the returned count is the old length). -/
def clearQueue (st : QState) : QState :=
  { st with queue := [] }

/-- `parseInt(process.env.MAX_CONCURRENT_BUILDS) || 1` followed by
`Math.max(1, Math.min(·, 4))`.  `none` models an unset or non-numeric
variable (`parseInt` gives `NaN`, which is falsy); a parsed `0` is falsy
too. -/
def clampMaxConcurrent (envMax : Option Int) : Nat :=
  let parsed : Int :=
    match envMax with
    | none => 1
    | some n => if n = 0 then 1 else n
  (max 1 (min parsed 4)).toNat

/-- The zeroed statistics record of the constructor. -/
def initStats : Stats :=
  { success := 0, failed := 0, total := 0, totalTime := 0 }

/-- The constructor state of `BuildQueue` before `this.load()` runs. -/
def initState (envMax : Option Int) (adminIds : List Nat) : QState :=
  { maxConcurrent := clampMaxConcurrent envMax, adminIds := adminIds,
    queue := [], activeBuilds := [], stats := initStats }

/-- The persisted document `{queue, stats, lastSaved}` written by `save()`.
Fields are optional on the read side (`data.queue || []`,
`data.stats || this.stats`). -/
structure PersistedDoc where
  queue : Option (List QueueItem)
  stats : Option Stats
  lastSaved : Nat
deriving DecidableEq, Repr

/-- `save()`: serialise the queue and statistics (active builds are not
written). -/
def save (st : QState) (now : Nat) : PersistedDoc :=
  { queue := some st.queue, stats := some st.stats, lastSaved := now }

/-- `load()`: read the document into the queue and statistics; a missing or
corrupt file (`none`) leaves the state untouched. -/
def load (st : QState) (d : Option PersistedDoc) : QState :=
  match d with
  | none => st
  | some doc => { st with queue := doc.queue.getD [], stats := doc.stats.getD st.stats }

/-- The spec's average-duration estimate, in minutes: cumulative successful
duration (milliseconds) divided by the success count when there are
successes, a fixed fallback of 3 minutes otherwise. -/
def specAvgMinutes (s : Stats) : Int :=
  if 0 < s.success then round ((s.totalTime : ℚ) / ((60000 * s.success : Nat) : ℚ)) else 3

/-- The spec's wait estimate:
`max(1, ceil(effectivePositionAhead * avgMinutes / maxConcurrent))` with
`effectivePositionAhead = max(0, position - (maxConcurrent - activeCount))`. -/
def specEstimatedWait (m activeCount : Nat) (s : Stats) (p : Nat) : Int :=
  let ahead : Int := max 0 ((p : Int) - ((m : Int) - (activeCount : Int)))
  max 1 (Int.ceil (((ahead : ℚ) * (specAvgMinutes s : ℚ)) / (m : ℚ)))

/-- The public operations of the scheduler (claim C1's list). -/
inductive Op where
  | submit (c bd : Nat) (ty un : String)
  | withdraw (c : Nat)
  | reserve (c bd : Nat) (ty un : String)
  | release (c : Nat) (success : Bool)
  | procNext
  | watchdog
  | forceRel (c : Option Nat)
  | clearQ
  | heartbeat (c : Option Nat)
deriving DecidableEq, Repr

/-- One public operation applied at time `t`. -/
def applyOp (cbOk : Nat → Bool) (t : Nat) (st : QState) : Op → QState
  | Op.submit c bd ty un => (addToQueue st c bd ty un t).2
  | Op.withdraw c => { st with queue := removeFirst st.queue c }
  | Op.reserve c bd ty un => (acquire st c bd ty un t).2
  | Op.release c success => release cbOk t st c success
  | Op.procNext => processNext cbOk t st
  | Op.watchdog => checkStuckBuilds cbOk t st
  | Op.forceRel c => forceRelease cbOk t st c
  | Op.clearQ => clearQueue st
  | Op.heartbeat c => updateActivity st c t

/-- Run a timed list of public operations. -/
def runOps (cbOk : Nat → Bool) (st : QState) : List (Nat × Op) → QState
  | [] => st
  | (t, op) :: rest => runOps cbOk (applyOp cbOk t st op) rest

/-- Every state visited along a timed list of public operations. -/
def traceStates (cbOk : Nat → Bool) (st : QState) : List (Nat × Op) → List QState
  | [] => [st]
  | (t, op) :: rest => st :: traceStates cbOk (applyOp cbOk t st op) rest

/-- The usage discipline under which dual-occupancy freedom holds: `submit`
is not invoked for a currently active identity and `reserve` is not invoked
for a currently queued identity. -/
def opGuard (st : QState) : Op → Bool
  | Op.submit c _ _ _ => !hasActive st c
  | Op.reserve c _ _ _ => !decide (c ∈ st.queue.map (·.chatId))
  | _ => true

/-- `opGuard` holding at every step of a timed trace. -/
def traceGuarded (cbOk : Nat → Bool) : QState → List (Nat × Op) → Bool
  | _, [] => true
  | st, (t, op) :: rest =>
    opGuard st op && traceGuarded cbOk (applyOp cbOk t st op) rest

/-- No identity occurs twice in the admission queue. -/
def queueIdsNodup (st : QState) : Prop :=
  (st.queue.map (·.chatId)).Nodup

/-- No identity is simultaneously queued and active. -/
def noDualOccupancy (st : QState) : Prop :=
  ∀ i ∈ st.queue, findA st.activeBuilds i.chatId = none

/-- The registry holds at most one entry per identity (a `Map` in the
source). -/
def activeKeysNodup (st : QState) : Prop :=
  (st.activeBuilds.map Prod.fst).Nodup

/-- The reachable-state invariant behind claims C1, C6 and C10. -/
def goodInv (st : QState) : Prop :=
  queueIdsNodup st ∧ noDualOccupancy st ∧ activeKeysNodup st

/-- The admission queue is a block of priority entries followed by a block of
non-priority entries. -/
def IsBucketed (q : List QueueItem) : Prop :=
  List.Pairwise (fun a b => b.priority = true → a.priority = true) q

instance (st : QState) : Decidable (queueIdsNodup st) := by
  unfold queueIdsNodup; infer_instance

instance (st : QState) : Decidable (noDualOccupancy st) := by
  unfold noDualOccupancy; infer_instance

instance (st : QState) : Decidable (activeKeysNodup st) := by
  unfold activeKeysNodup; infer_instance

instance (st : QState) : Decidable (goodInv st) := by
  unfold goodInv; infer_instance

instance (q : List QueueItem) : Decidable (IsBucketed q) := by
  unfold IsBucketed; infer_instance

/-- The callback oracle of the normal production configuration: the start
callback is registered and returns normally. -/
def cbAlways : Nat → Bool := fun _ => true

/-- Submitting twice for the same identity, the second time while the first
build is still active (capacity 1, no admins). -/
def dualOps : List (Nat × Op) :=
  [(100, Op.submit 7 0 "url" "U"), (200, Op.submit 7 0 "url" "U")]

/-- The state after `dualOps` from a fresh instance. -/
def dualState : QState := runOps cbAlways (initState (some 1) []) dualOps

/-- A server at capacity (one active build, capacity 1) whose admin
allow-list contains identities 1 and 3. -/
def c3Busy : QState :=
  { maxConcurrent := 1, adminIds := [1, 3], queue := [],
    activeBuilds := [(9, Build.mk 0 0 0 "url" "X")], stats := initStats }

/-- Submitting A=1 (priority), B=2, C=3 (priority), D=4 in that order while
at capacity. -/
def c3Final : QState :=
  (addToQueue (addToQueue (addToQueue
    (addToQueue c3Busy 1 0 "url" "A" 10).2 2 0 "url" "B" 20).2
      3 0 "url" "C" 30).2 4 0 "url" "D" 40).2

/-- A state with one active build for identity 7 and spare capacity. -/
def c4State : QState :=
  { maxConcurrent := 2, adminIds := [], queue := [],
    activeBuilds := [(7, Build.mk 100 100 0 "url" "A")], stats := initStats }

/-- One active build for identity 7, empty queue, capacity 1. -/
def c5State : QState :=
  { maxConcurrent := 1, adminIds := [], queue := [],
    activeBuilds := [(7, Build.mk 1000 1000 0 "url" "B")], stats := initStats }

/-- One active build whose last activity is stale relative to the watchdog
budgets once enough time passes. -/
def c6State : QState :=
  { maxConcurrent := 1, adminIds := [], queue := [],
    activeBuilds := [(7, Build.mk 1000 1000 0 "url" "W")], stats := initStats }

/-- One active build for identity 7 and one queued request of identity 8. -/
def c7State : QState :=
  { maxConcurrent := 1, adminIds := [], queue := [mkQueueItem 5 8 0 "url" "Q" false],
    activeBuilds := [(7, Build.mk 10 10 0 "url" "R")], stats := initStats }

/-- Spare capacity but the queue head's identity is already active, so slot
reservation for the popped head fails. -/
def c7DupState : QState :=
  { maxConcurrent := 2, adminIds := [], queue := [mkQueueItem 5 7 0 "url" "Q" false],
    activeBuilds := [(7, Build.mk 10 10 0 "url" "R")], stats := initStats }

/-- A short guarded trace from a fresh instance. -/
def c1Ops : List (Nat × Op) :=
  [(0, Op.submit 1 0 "url" "N"), (1, Op.submit 2 0 "zip" "M"), (2, Op.release 1 true)]

/-! ### Association-list lemmas -/

theorem findA_eq_none_iff (m : List (Nat × Build)) (k : Nat) :
    findA m k = none ↔ k ∉ m.map Prod.fst := by
  induction m with
  | nil => simp [findA]
  | cons p rest ih =>
    by_cases h : p.1 = k
    · simp [findA, h]
    · have h' : k ≠ p.1 := fun he => h he.symm
      simp [findA, h, h', ih]

theorem findA_append_some {m : List (Nat × Build)} {k : Nat} {b : Build}
    (h : findA m k = some b) (m2 : List (Nat × Build)) :
    findA (m ++ m2) k = some b := by
  induction m with
  | nil => simp [findA] at h
  | cons p rest ih =>
    by_cases hp : p.1 = k
    · simp only [findA, if_pos hp] at h
      simp only [List.cons_append, findA, if_pos hp]
      exact h
    · simp only [findA, if_neg hp] at h
      simp only [List.cons_append, findA, if_neg hp]
      exact ih h

theorem findA_append_none {m : List (Nat × Build)} {k : Nat}
    (h : findA m k = none) (m2 : List (Nat × Build)) :
    findA (m ++ m2) k = findA m2 k := by
  induction m with
  | nil => simp
  | cons p rest ih =>
    by_cases hp : p.1 = k
    · simp only [findA, if_pos hp] at h
      exact Option.noConfusion h
    · simp only [findA, if_neg hp, List.cons_append] at h ⊢
      exact ih h

theorem findA_singleton_ne {k c : Nat} (h : c ≠ k) (b : Build) :
    findA [(c, b)] k = none := by
  simp [findA, h]

theorem findA_eraseA_self (m : List (Nat × Build)) (k : Nat) :
    findA (eraseA m k) k = none := by
  induction m with
  | nil => simp [eraseA, findA]
  | cons p rest ih =>
    by_cases hp : p.1 = k
    · simp only [eraseA, if_pos hp]
      exact ih
    · simp only [eraseA, if_neg hp, findA, if_neg hp]
      exact ih

theorem findA_eraseA_ne {k k' : Nat} (h : k ≠ k') (m : List (Nat × Build)) :
    findA (eraseA m k') k = findA m k := by
  induction m with
  | nil => simp [eraseA]
  | cons p rest ih =>
    by_cases hp : p.1 = k'
    · have h2 : p.1 ≠ k := by rw [hp]; exact Ne.symm h
      simp only [eraseA, if_pos hp, findA, if_neg h2]
      exact ih
    · simp only [eraseA, if_neg hp, findA]
      by_cases hk : p.1 = k
      · simp [hk]
      · simp only [if_neg hk]
        exact ih

theorem eraseA_sublist (m : List (Nat × Build)) (k : Nat) :
    (eraseA m k).Sublist m := by
  induction m with
  | nil => simp [eraseA]
  | cons p rest ih =>
    by_cases hp : p.1 = k
    · simp only [eraseA, if_pos hp]
      exact ih.cons p
    · simp only [eraseA, if_neg hp]
      exact ih.cons₂ p

theorem findA_some_mem {m : List (Nat × Build)} {k : Nat} {b : Build}
    (h : findA m k = some b) : (k, b) ∈ m := by
  induction m with
  | nil => simp [findA] at h
  | cons p rest ih =>
    by_cases hp : p.1 = k
    · simp only [findA, if_pos hp] at h
      have hb := Option.some.inj h
      subst hp; subst hb
      exact List.mem_cons_self p rest
    · simp only [findA, if_neg hp] at h
      exact List.mem_cons_of_mem p (ih h)

theorem findA_of_mem_nodup {m : List (Nat × Build)} {k : Nat} {b : Build}
    (hnd : (m.map Prod.fst).Nodup) (h : (k, b) ∈ m) : findA m k = some b := by
  induction m with
  | nil => simp at h
  | cons p rest ih =>
    rw [List.map_cons, List.nodup_cons] at hnd
    rcases List.mem_cons.1 h with h1 | h1
    · rw [← h1]
      simp [findA]
    · have hne : p.1 ≠ k := by
        intro he
        apply hnd.1
        rw [he]
        exact List.mem_map_of_mem Prod.fst h1
      simp only [findA, if_neg hne]
      exact ih hnd.2 h1

theorem mem_unique_of_keys_nodup {m : List (Nat × Build)} {k : Nat} {b b' : Build}
    (hnd : (m.map Prod.fst).Nodup) (h : (k, b) ∈ m) (h' : (k, b') ∈ m) : b = b' := by
  have h1 := findA_of_mem_nodup hnd h
  have h2 := findA_of_mem_nodup hnd h'
  rw [h1] at h2
  exact Option.some.inj h2

theorem keys_map_keyPreserving {g : Nat × Build → Nat × Build}
    (hg : ∀ p, (g p).1 = p.1) (m : List (Nat × Build)) :
    (m.map g).map Prod.fst = m.map Prod.fst := by
  induction m with
  | nil => rfl
  | cons p rest ih => simp [hg, ih]

/-! ### Queue-list lemmas -/

theorem removeFirst_sublist (q : List QueueItem) (c : Nat) :
    (removeFirst q c).Sublist q := by
  induction q with
  | nil => simp [removeFirst]
  | cons i rest ih =>
    by_cases hi : i.chatId = c
    · simp only [removeFirst, if_pos hi]
      exact List.sublist_cons_self i rest
    · simp only [removeFirst, if_neg hi]
      exact ih.cons₂ i

theorem not_mem_removeFirst {q : List QueueItem} {c : Nat}
    (hnd : (q.map (·.chatId)).Nodup) : c ∉ (removeFirst q c).map (·.chatId) := by
  induction q with
  | nil => simp [removeFirst]
  | cons i rest ih =>
    rw [List.map_cons, List.nodup_cons] at hnd
    by_cases hi : i.chatId = c
    · simp only [removeFirst, if_pos hi]
      rw [← hi]
      exact hnd.1
    · simp only [removeFirst, if_neg hi, List.map_cons]
      intro hmem
      rcases List.mem_cons.1 hmem with h1 | h1
      · exact hi h1.symm
      · exact ih hnd.2 h1

theorem insertPriority_perm (q : List QueueItem) (item : QueueItem) :
    (insertPriority q item).Perm (item :: q) := by
  induction q with
  | nil => simp [insertPriority]
  | cons x rest ih =>
    by_cases hx : x.priority
    · simp only [insertPriority, if_pos hx]
      exact (ih.cons x).trans (List.Perm.swap item x rest)
    · simp only [insertPriority, if_neg hx]
      exact List.Perm.refl _

theorem insertPriority_eq_takeDrop (q : List QueueItem) (item : QueueItem) :
    insertPriority q item =
      q.takeWhile (·.priority) ++ item :: q.dropWhile (·.priority) := by
  induction q with
  | nil => simp [insertPriority]
  | cons x rest ih =>
    by_cases hx : x.priority
    · simp only [insertPriority, if_pos hx, List.takeWhile_cons, List.dropWhile_cons, hx]
      simp [ih]
    · have hx' : x.priority = false := by
        cases hxx : x.priority
        · rfl
        · exact absurd hxx hx
      simp only [insertPriority, if_neg hx, List.takeWhile_cons, List.dropWhile_cons, hx']
      simp

/-! ### `releaseCore`, `acquire` and `processNextAux` basic facts -/

theorem releaseCore_queue (now : Nat) (st : QState) (c : Nat) (success : Bool) :
    (releaseCore now st c success).queue = st.queue := by
  unfold releaseCore
  cases findA st.activeBuilds c <;> rfl

theorem releaseCore_maxConcurrent (now : Nat) (st : QState) (c : Nat) (success : Bool) :
    (releaseCore now st c success).maxConcurrent = st.maxConcurrent := by
  unfold releaseCore
  cases findA st.activeBuilds c <;> rfl

theorem releaseCore_adminIds (now : Nat) (st : QState) (c : Nat) (success : Bool) :
    (releaseCore now st c success).adminIds = st.adminIds := by
  unfold releaseCore
  cases findA st.activeBuilds c <;> rfl

/-- `releaseCore` on an active identity, spelled out. -/
theorem releaseCore_eq_some {st : QState} {c : Nat} {b : Build}
    (h : findA st.activeBuilds c = some b) (now : Nat) (success : Bool) :
    releaseCore now st c success =
      { st with
        stats :=
          if success then
            { st.stats with success := st.stats.success + 1,
                            totalTime := st.stats.totalTime + (now - b.startTime) }
          else { st.stats with failed := st.stats.failed + 1 },
        activeBuilds := eraseA st.activeBuilds c } := by
  unfold releaseCore
  rw [h]

theorem releaseCore_eq_none {st : QState} {c : Nat}
    (h : findA st.activeBuilds c = none) (now : Nat) (success : Bool) :
    releaseCore now st c success = st := by
  unfold releaseCore
  rw [h]

/-- Dichotomy for `acquire`'s resulting state. -/
theorem acquire_snd_cases (st : QState) (c bd : Nat) (ty un : String) (now : Nat) :
    ((acquire st c bd ty un now).1 = false ∧ (acquire st c bd ty un now).2 = st) ∨
    ((acquire st c bd ty un now).1 = true ∧
     findA st.activeBuilds c = none ∧ st.activeBuilds.length < st.maxConcurrent ∧
     (acquire st c bd ty un now).2 =
       { st with activeBuilds := st.activeBuilds ++ [(c, Build.mk now now bd ty un)] }) := by
  unfold acquire
  by_cases h1 : hasActive st c
  · left; simp [h1]
  · by_cases h2 : st.maxConcurrent ≤ st.activeBuilds.length
    · left; simp [h1, h2]
    · right
      refine ⟨by simp [h1, h2], ?_, by omega, by simp [h1, h2]⟩
      unfold hasActive at h1
      exact Option.not_isSome_iff_eq_none.mp h1

/-- The chosen fuel is semantically inert: any fuel at least the queue length
computes the same result. -/
theorem processNextAux_fuel_irrelevant (cbOk : Nat → Bool) (now : Nat) :
    ∀ (f f' : Nat) (st : QState), st.queue.length ≤ f → st.queue.length ≤ f' →
      processNextAux cbOk now f st = processNextAux cbOk now f' st := by
  intro f
  induction f with
  | zero =>
    intro f' st hf _
    have hq : st.queue = [] := List.length_eq_zero.1 (Nat.le_zero.1 hf)
    cases f' with
    | zero => rfl
    | succ n => simp [processNextAux, hq]
  | succ n ih =>
    intro f' st hf hf'
    cases hq : st.queue with
    | nil =>
      cases f' with
      | zero => simp [processNextAux, hq]
      | succ n' => simp [processNextAux, hq]
    | cons nb rest =>
      have hlen : st.queue.length = rest.length + 1 := by rw [hq]; rfl
      cases f' with
      | zero => omega
      | succ n' =>
        simp only [processNextAux, hq]
        by_cases hb : isBusy st
        · simp [hb]
        · simp only [hb, if_false, Bool.false_eq_true]
          set r := acquire { st with queue := rest } nb.chatId nb.buildData nb.type nb.userName now with hr
          by_cases hacq : r.1
          · by_cases hcb : cbOk nb.chatId
            · simp [hacq, hcb]
            · simp only [hacq, hcb, if_true, if_false, Bool.false_eq_true]
              apply ih
              · rcases acquire_snd_cases { st with queue := rest } nb.chatId nb.buildData nb.type nb.userName now with ⟨hf1, _⟩ | ⟨_, _, _, he⟩
                · rw [← hr] at hf1; rw [hf1] at hacq; exact absurd hacq (by simp)
                · rw [← hr] at he
                  rw [releaseCore_queue, he]
                  simpa using by omega
              · rcases acquire_snd_cases { st with queue := rest } nb.chatId nb.buildData nb.type nb.userName now with ⟨hf1, _⟩ | ⟨_, _, _, he⟩
                · rw [← hr] at hf1; rw [hf1] at hacq; exact absurd hacq (by simp)
                · rw [← hr] at he
                  rw [releaseCore_queue, he]
                  simpa using by omega
          · simp [hacq]

/-- Generic preservation principle for `processNextAux`: any predicate stable
under the promote step and under a forced `releaseCore` is preserved. -/
theorem processNextAux_preserve (cbOk : Nat → Bool) (now : Nat) (M : QState → Prop)
    (hstep : ∀ s nb rest, s.queue = nb :: rest → isBusy s = false →
      findA s.activeBuilds nb.chatId = none → s.activeBuilds.length < s.maxConcurrent →
      M s →
      M { s with queue := rest,
                 activeBuilds := s.activeBuilds ++
                   [(nb.chatId, Build.mk now now nb.buildData nb.type nb.userName)] })
    (hrel : ∀ s c, M s → M (releaseCore now s c false)) :
    ∀ (fuel : Nat) (st : QState), M st → M (processNextAux cbOk now fuel st) := by
  intro fuel
  induction fuel with
  | zero => intro st h; exact h
  | succ n ih =>
    intro st h
    cases hq : st.queue with
    | nil => simpa [processNextAux, hq] using h
    | cons nb rest =>
      simp only [processNextAux, hq]
      by_cases hb : isBusy st
      · simpa [hb] using h
      · simp only [hb, if_false, Bool.false_eq_true]
        rcases acquire_snd_cases { st with queue := rest } nb.chatId nb.buildData nb.type
            nb.userName now with ⟨hf1, _⟩ | ⟨ht, hnone, hlt, he⟩
        · simpa [hf1] using h
        · have hstepped :
              M { st with queue := rest,
                          activeBuilds := st.activeBuilds ++
                            [(nb.chatId, Build.mk now now nb.buildData nb.type nb.userName)] } := by
            have := hstep st nb rest hq (Bool.not_eq_true _ |>.mp hb) (by simpa using hnone) (by simpa using hlt) h
            exact this
          by_cases hcb : cbOk nb.chatId
          · simp only [ht, hcb, if_true]
            rw [he]
            exact hstepped
          · simp only [ht, hcb, if_true, if_false, Bool.false_eq_true]
            rw [he]
            exact ih _ (hrel _ _ hstepped)

/-! ### Preservation instances -/

theorem releaseCore_cap {st : QState}
    (h : st.activeBuilds.length ≤ st.maxConcurrent) (now : Nat) (c : Nat) (success : Bool) :
    (releaseCore now st c success).activeBuilds.length ≤
      (releaseCore now st c success).maxConcurrent := by
  unfold releaseCore
  cases hf : findA st.activeBuilds c
  · exact h
  · simp only
    exact le_trans ((eraseA_sublist st.activeBuilds c).length_le) h

theorem releaseCore_active_none {st : QState} {k : Nat}
    (h : findA st.activeBuilds k = none) (now : Nat) (c : Nat) (success : Bool) :
    findA (releaseCore now st c success).activeBuilds k = none := by
  unfold releaseCore
  cases hf : findA st.activeBuilds c
  · exact h
  · simp only
    by_cases hk : k = c
    · rw [hk]; exact findA_eraseA_self _ _
    · rw [findA_eraseA_ne hk]; exact h

theorem releaseCore_good {st : QState} (h : goodInv st) (now : Nat) (c : Nat) (success : Bool) :
    goodInv (releaseCore now st c success) := by
  obtain ⟨h1, h2, h3⟩ := h
  unfold releaseCore
  cases hf : findA st.activeBuilds c
  · exact ⟨h1, h2, h3⟩
  · refine ⟨h1, ?_, ?_⟩
    · intro i hi
      simp only at hi ⊢
      by_cases hk : i.chatId = c
      · rw [hk]
        exact findA_eraseA_self _ _
      · rw [findA_eraseA_ne hk]
        exact h2 i hi
    · unfold activeKeysNodup at h3 ⊢
      simp only
      exact h3.sublist ((eraseA_sublist st.activeBuilds c).map Prod.fst)

theorem processNextAux_cap (cbOk : Nat → Bool) (now : Nat) (fuel : Nat) (st : QState)
    (h : st.activeBuilds.length ≤ st.maxConcurrent) :
    (processNextAux cbOk now fuel st).activeBuilds.length ≤
      (processNextAux cbOk now fuel st).maxConcurrent := by
  refine processNextAux_preserve cbOk now
    (fun s => s.activeBuilds.length ≤ s.maxConcurrent) ?_ ?_ fuel st h
  · intro s nb rest _ _ _ hlt _
    simpa using hlt
  · intro s c hs
    exact releaseCore_cap hs now c false

theorem processNextAux_maxConcurrent (cbOk : Nat → Bool) (now : Nat) (fuel : Nat) (st : QState) :
    (processNextAux cbOk now fuel st).maxConcurrent = st.maxConcurrent := by
  refine processNextAux_preserve cbOk now
    (fun s => s.maxConcurrent = st.maxConcurrent) ?_ ?_ fuel st rfl
  · intro s nb rest _ _ _ _ hs
    simpa using hs
  · intro s c hs
    rw [releaseCore_maxConcurrent]
    exact hs

theorem processNextAux_queue_sublist (cbOk : Nat → Bool) (now : Nat) (fuel : Nat) (st : QState) :
    (processNextAux cbOk now fuel st).queue.Sublist st.queue := by
  refine processNextAux_preserve cbOk now
    (fun s => s.queue.Sublist st.queue) ?_ ?_ fuel st (List.Sublist.refl _)
  · intro s nb rest hq _ _ _ hs
    simp only
    refine List.Sublist.trans ?_ hs
    rw [hq]
    exact List.sublist_cons_self nb rest
  · intro s c hs
    rw [releaseCore_queue]
    exact hs

theorem processNextAux_active_none (cbOk : Nat → Bool) (now : Nat) (fuel : Nat) (st : QState)
    {k : Nat} (h1 : findA st.activeBuilds k = none) (h2 : k ∉ st.queue.map (·.chatId)) :
    findA (processNextAux cbOk now fuel st).activeBuilds k = none := by
  have main := processNextAux_preserve cbOk now
    (fun s => findA s.activeBuilds k = none ∧ k ∉ s.queue.map (·.chatId)) ?_ ?_ fuel st ⟨h1, h2⟩
  · exact main.1
  · intro s nb rest hq _ hnone _ hs
    obtain ⟨hsn, hsq⟩ := hs
    rw [hq] at hsq
    simp only [List.map_cons, List.mem_cons] at hsq
    push_neg at hsq
    constructor
    · simp only
      rw [findA_append_none hsn]
      exact findA_singleton_ne (fun he => hsq.1 he.symm) _
    · simpa using hsq.2
  · intro s c hs
    exact ⟨releaseCore_active_none hs.1 now c false, by rw [releaseCore_queue]; exact hs.2⟩

theorem processNextAux_good (cbOk : Nat → Bool) (now : Nat) (fuel : Nat) (st : QState)
    (h : goodInv st) : goodInv (processNextAux cbOk now fuel st) := by
  refine processNextAux_preserve cbOk now goodInv ?_ ?_ fuel st h
  · intro s nb rest hq _ hnone _ hs
    obtain ⟨hs1, hs2, hs3⟩ := hs
    unfold queueIdsNodup at hs1
    rw [hq, List.map_cons, List.nodup_cons] at hs1
    refine ⟨?_, ?_, ?_⟩
    · unfold queueIdsNodup
      simpa using hs1.2
    · intro i hi
      simp only at hi ⊢
      have hiq : i ∈ s.queue := by rw [hq]; exact List.mem_cons_of_mem nb hi
      rw [findA_append_none (hs2 i hiq)]
      refine findA_singleton_ne ?_ _
      intro he
      exact hs1.1 (he ▸ List.mem_map_of_mem (·.chatId) hi)
    · unfold activeKeysNodup at hs3 ⊢
      simp only [List.map_append, List.map_cons, List.map_nil]
      rw [List.nodup_append]
      refine ⟨hs3, List.nodup_singleton _, ?_⟩
      intro a ha hb
      simp only [List.mem_singleton] at hb
      rw [hb] at ha
      exact (findA_eq_none_iff _ _).1 hnone ha
  · intro s c hs
    exact releaseCore_good hs now c false

theorem processNext_good (cbOk : Nat → Bool) (now : Nat) (st : QState)
    (h : goodInv st) : goodInv (processNext cbOk now st) :=
  processNextAux_good cbOk now _ st h

theorem processNext_cap (cbOk : Nat → Bool) (now : Nat) (st : QState)
    (h : st.activeBuilds.length ≤ st.maxConcurrent) :
    (processNext cbOk now st).activeBuilds.length ≤ (processNext cbOk now st).maxConcurrent :=
  processNextAux_cap cbOk now _ st h

theorem processNext_maxConcurrent (cbOk : Nat → Bool) (now : Nat) (st : QState) :
    (processNext cbOk now st).maxConcurrent = st.maxConcurrent :=
  processNextAux_maxConcurrent cbOk now _ st

theorem processNext_queue_sublist (cbOk : Nat → Bool) (now : Nat) (st : QState) :
    (processNext cbOk now st).queue.Sublist st.queue :=
  processNextAux_queue_sublist cbOk now _ st

theorem processNext_active_none (cbOk : Nat → Bool) (now : Nat) (st : QState)
    {k : Nat} (h1 : findA st.activeBuilds k = none) (h2 : k ∉ st.queue.map (·.chatId)) :
    findA (processNext cbOk now st).activeBuilds k = none :=
  processNextAux_active_none cbOk now _ st h1 h2

/-- With a callback that always succeeds, `processNext` either returns the
state unchanged or promotes exactly the queue head. -/
theorem processNext_T_eq (now : Nat) (st : QState) :
    processNext (fun _ => true) now st = st ∨
    ∃ nb rest, st.queue = nb :: rest ∧ isBusy st = false ∧
      findA st.activeBuilds nb.chatId = none ∧
      st.activeBuilds.length < st.maxConcurrent ∧
      processNext (fun _ => true) now st =
        { st with queue := rest,
                  activeBuilds := st.activeBuilds ++
                    [(nb.chatId, Build.mk now now nb.buildData nb.type nb.userName)] } := by
  unfold processNext
  cases hq : st.queue with
  | nil =>
    left
    rfl
  | cons nb rest =>
    simp only [List.length_cons, processNextAux, hq]
    by_cases hb : isBusy st
    · left; simp [hb]
    · rcases acquire_snd_cases { st with queue := rest } nb.chatId nb.buildData nb.type
          nb.userName now with ⟨hf1, _⟩ | ⟨ht, hnone, hlt, he⟩
      · left; simp [hb, hf1]
      · right
        refine ⟨nb, rest, rfl, Bool.not_eq_true _ |>.mp hb, by simpa using hnone,
          by simpa using hlt, ?_⟩
        simp only [hb, if_false, Bool.false_eq_true, ht, if_true]
        rw [he]

/-! ### `release` facts -/

theorem release_eq_none {st : QState} {c : Nat}
    (h : findA st.activeBuilds c = none) (cbOk : Nat → Bool) (now : Nat) (success : Bool) :
    release cbOk now st c success = st := by
  unfold release
  rw [h]

theorem release_eq_some {st : QState} {c : Nat} {b : Build}
    (h : findA st.activeBuilds c = some b) (cbOk : Nat → Bool) (now : Nat) (success : Bool) :
    release cbOk now st c success = processNext cbOk now (releaseCore now st c success) := by
  unfold release
  rw [h]

theorem release_good (cbOk : Nat → Bool) (now : Nat) (st : QState) (c : Nat) (success : Bool)
    (h : goodInv st) : goodInv (release cbOk now st c success) := by
  unfold release
  cases hf : findA st.activeBuilds c
  · exact h
  · exact processNext_good cbOk now _ (releaseCore_good h now c success)

theorem release_cap (cbOk : Nat → Bool) (now : Nat) (st : QState) (c : Nat) (success : Bool)
    (h : st.activeBuilds.length ≤ st.maxConcurrent) :
    (release cbOk now st c success).activeBuilds.length ≤
      (release cbOk now st c success).maxConcurrent := by
  unfold release
  cases hf : findA st.activeBuilds c
  · exact h
  · exact processNext_cap cbOk now _ (releaseCore_cap h now c success)

theorem release_maxConcurrent (cbOk : Nat → Bool) (now : Nat) (st : QState) (c : Nat)
    (success : Bool) : (release cbOk now st c success).maxConcurrent = st.maxConcurrent := by
  unfold release
  cases hf : findA st.activeBuilds c
  · rfl
  · rw [processNext_maxConcurrent, releaseCore_maxConcurrent]

theorem release_queue_sublist (cbOk : Nat → Bool) (now : Nat) (st : QState) (c : Nat)
    (success : Bool) : (release cbOk now st c success).queue.Sublist st.queue := by
  unfold release
  cases hf : findA st.activeBuilds c
  · exact List.Sublist.refl _
  · have := processNext_queue_sublist cbOk now (releaseCore now st c success)
    rwa [releaseCore_queue] at this

theorem release_active_none (cbOk : Nat → Bool) (now : Nat) (st : QState) (c : Nat)
    (success : Bool) {k : Nat} (h1 : findA st.activeBuilds k = none)
    (h2 : k ∉ st.queue.map (·.chatId)) :
    findA (release cbOk now st c success).activeBuilds k = none := by
  unfold release
  cases hf : findA st.activeBuilds c
  · exact h1
  · refine processNext_active_none cbOk now _ (releaseCore_active_none h1 now c success) ?_
    rw [releaseCore_queue]
    exact h2

/-- A just-released identity that is not queued stays out of the registry. -/
theorem release_self_none (cbOk : Nat → Bool) (now : Nat) (st : QState) {c : Nat} {b : Build}
    (h : findA st.activeBuilds c = some b) (h2 : c ∉ st.queue.map (·.chatId))
    (success : Bool) :
    findA (release cbOk now st c success).activeBuilds c = none := by
  rw [release_eq_some h]
  refine processNext_active_none cbOk now _ ?_ ?_
  · rw [releaseCore_eq_some h]
    exact findA_eraseA_self _ _
  · rw [releaseCore_queue]
    exact h2

theorem processNext_T_stats (now : Nat) (st : QState) :
    (processNext (fun _ => true) now st).stats = st.stats := by
  rcases processNext_T_eq now st with h | ⟨nb, rest, _, _, _, _, h⟩ <;> rw [h]

theorem processNext_T_findA_some (now : Nat) (st : QState) {k : Nat} {b : Build}
    (h : findA st.activeBuilds k = some b) :
    findA (processNext (fun _ => true) now st).activeBuilds k = some b := by
  rcases processNext_T_eq now st with he | ⟨nb, rest, _, _, _, _, he⟩ <;> rw [he]
  · exact h
  · exact findA_append_some h _

theorem release_T_stats_failed (now : Nat) (st : QState) {c : Nat} {b : Build}
    (h : findA st.activeBuilds c = some b) :
    (release (fun _ => true) now st c false).stats =
      { st.stats with failed := st.stats.failed + 1 } := by
  rw [release_eq_some h, processNext_T_stats, releaseCore_eq_some h]
  simp

theorem release_T_findA_some_ne (now : Nat) (st : QState) {k c : Nat} {b : Build}
    (hk : k ≠ c) (h : findA st.activeBuilds k = some b) :
    findA (release (fun _ => true) now st c false).activeBuilds k = some b := by
  cases hf : findA st.activeBuilds c
  · rw [release_eq_none hf]
    exact h
  · rw [release_eq_some hf]
    refine processNext_T_findA_some now _ ?_
    rw [releaseCore_eq_some hf]
    simp only
    rw [findA_eraseA_ne hk]
    exact h

/-! ### `addToQueue` characterization -/

/-- `addToQueue` either starts the build immediately (free slot, identity not
active) or enqueues a freshly built item by priority. -/
theorem addToQueue_snd_cases (st : QState) (c bd : Nat) (ty un : String) (now : Nat) :
    ((addToQueue st c bd ty un now).2 =
      { st with queue := removeFirst st.queue c,
                stats := { st.stats with total := st.stats.total + 1 },
                activeBuilds := st.activeBuilds ++ [(c, Build.mk now now bd ty un)] } ∧
      findA st.activeBuilds c = none ∧ st.activeBuilds.length < st.maxConcurrent) ∨
    ((addToQueue st c bd ty un now).2 =
      { st with
          queue :=
            if isAdmin st c then
              insertPriority (removeFirst st.queue c) (mkQueueItem now c bd ty un (isAdmin st c))
            else removeFirst st.queue c ++ [mkQueueItem now c bd ty un (isAdmin st c)],
          stats := { st.stats with total := st.stats.total + 1 } }) := by
  by_cases hble : st.maxConcurrent ≤ st.activeBuilds.length
  · right
    unfold addToQueue enqueueItem
    simp [isBusy, isAdmin, hble]
  · by_cases hf : findA st.activeBuilds c = none
    · left
      refine ⟨?_, hf, by omega⟩
      unfold addToQueue
      simp [isBusy, hasActive, hble, hf, acquire]
    · right
      unfold addToQueue enqueueItem
      have hs : (findA st.activeBuilds c).isSome = true := by
        cases hfa : findA st.activeBuilds c
        · exact absurd hfa hf
        · rfl
      simp [isBusy, hasActive, isAdmin, hble, hs]

/-! ### Watchdog, force-release and heartbeat preservation -/

theorem foldl_release_preserve (cbOk : Nat → Bool) (now : Nat) (M : QState → Prop)
    (hM : ∀ s (k : Nat), M s → M (release cbOk now s k false)) :
    ∀ (L : List (Nat × Build)) (s : QState), M s →
      M (L.foldl (fun a p => release cbOk now a p.1 false) s) := by
  intro L
  induction L with
  | nil => intro s h; exact h
  | cons p rest ih =>
    intro s h
    exact ih _ (hM s p.1 h)

theorem checkStuckBuilds_preserve (cbOk : Nat → Bool) (now : Nat) (M : QState → Prop)
    (hM : ∀ s (k : Nat), M s → M (release cbOk now s k false)) (st : QState) (h : M st) :
    M (checkStuckBuilds cbOk now st) := by
  unfold checkStuckBuilds
  split
  · exact h
  · exact foldl_release_preserve cbOk now M hM _ st h

theorem goodInv_erase (st : QState) (cid : Nat) (h : goodInv st) :
    goodInv { st with activeBuilds := eraseA st.activeBuilds cid } := by
  obtain ⟨h1, h2, h3⟩ := h
  refine ⟨h1, ?_, ?_⟩
  · intro i hi
    simp only at hi ⊢
    by_cases hk : i.chatId = cid
    · rw [hk]
      exact findA_eraseA_self _ _
    · rw [findA_eraseA_ne hk]
      exact h2 i hi
  · unfold activeKeysNodup at h3 ⊢
    exact h3.sublist ((eraseA_sublist st.activeBuilds cid).map Prod.fst)

theorem goodInv_clearActive (st : QState) (h : goodInv st) :
    goodInv { st with activeBuilds := [] } := by
  obtain ⟨h1, _, _⟩ := h
  exact ⟨h1, fun i _ => rfl, List.nodup_nil⟩

theorem updateActivity_keys (st : QState) (c : Option Nat) (now : Nat) :
    (updateActivity st c now).activeBuilds.map Prod.fst = st.activeBuilds.map Prod.fst := by
  cases c with
  | none =>
    dsimp only [updateActivity]
    refine keys_map_keyPreserving ?_ _
    intro p
    rfl
  | some cid =>
    dsimp only [updateActivity]
    split
    · dsimp only
      refine keys_map_keyPreserving ?_ _
      intro p
      by_cases h : p.1 = cid <;> simp [h]
    · dsimp only
      refine keys_map_keyPreserving ?_ _
      intro p
      rfl

theorem updateActivity_queue (st : QState) (c : Option Nat) (now : Nat) :
    (updateActivity st c now).queue = st.queue := by
  cases c with
  | none => rfl
  | some cid =>
    simp only [updateActivity]
    split <;> rfl

theorem updateActivity_maxConcurrent (st : QState) (c : Option Nat) (now : Nat) :
    (updateActivity st c now).maxConcurrent = st.maxConcurrent := by
  cases c with
  | none => rfl
  | some cid =>
    simp only [updateActivity]
    split <;> rfl

theorem updateActivity_length (st : QState) (c : Option Nat) (now : Nat) :
    (updateActivity st c now).activeBuilds.length = st.activeBuilds.length := by
  have := updateActivity_keys st c now
  have h1 := congrArg List.length this
  simpa using h1

theorem updateActivity_good (st : QState) (c : Option Nat) (now : Nat) (h : goodInv st) :
    goodInv (updateActivity st c now) := by
  obtain ⟨h1, h2, h3⟩ := h
  refine ⟨?_, ?_, ?_⟩
  · unfold queueIdsNodup at h1 ⊢
    rw [updateActivity_queue]
    exact h1
  · intro i hi
    rw [updateActivity_queue] at hi
    rw [findA_eq_none_iff, updateActivity_keys]
    rw [← findA_eq_none_iff]
    exact h2 i hi
  · unfold activeKeysNodup at h3 ⊢
    rw [updateActivity_keys]
    exact h3

theorem forceRelease_none_eq (cbOk : Nat → Bool) (now : Nat) (st : QState) :
    forceRelease cbOk now st none = processNext cbOk now { st with activeBuilds := [] } := rfl

theorem forceRelease_zero_eq (cbOk : Nat → Bool) (now : Nat) (st : QState) :
    forceRelease cbOk now st (some 0) =
      processNext cbOk now { st with activeBuilds := [] } := rfl

theorem forceRelease_some_active {st : QState} {cid : Nat} (hc : cid ≠ 0)
    (ha : hasActive st cid = true) (cbOk : Nat → Bool) (now : Nat) :
    forceRelease cbOk now st (some cid) =
      processNext cbOk now { st with activeBuilds := eraseA st.activeBuilds cid } := by
  simp only [forceRelease]
  rw [if_pos hc, if_pos ha]

theorem forceRelease_some_inactive {st : QState} {cid : Nat} (hc : cid ≠ 0)
    (ha : hasActive st cid = false) (cbOk : Nat → Bool) (now : Nat) :
    forceRelease cbOk now st (some cid) = st := by
  simp only [forceRelease]
  rw [if_pos hc, if_neg (by rw [ha]; exact Bool.false_ne_true)]

/-- Case split for `forceRelease` on an arbitrary argument. -/
theorem forceRelease_cases (cbOk : Nat → Bool) (now : Nat) (st : QState) (c : Option Nat) :
    forceRelease cbOk now st c = processNext cbOk now { st with activeBuilds := [] } ∨
    (∃ cid, c = some cid ∧
      forceRelease cbOk now st c =
        processNext cbOk now { st with activeBuilds := eraseA st.activeBuilds cid }) ∨
    forceRelease cbOk now st c = st := by
  cases c with
  | none => left; rfl
  | some cid =>
    by_cases hc : cid = 0
    · left
      rw [hc]
      rfl
    · by_cases ha : hasActive st cid = true
      · right; left
        exact ⟨cid, rfl, forceRelease_some_active hc ha cbOk now⟩
      · right; right
        exact forceRelease_some_inactive hc (Bool.not_eq_true _ |>.mp ha) cbOk now

/-! ### Per-operation preservation -/

theorem applyOp_maxConcurrent (cbOk : Nat → Bool) (t : Nat) (st : QState) (op : Op) :
    (applyOp cbOk t st op).maxConcurrent = st.maxConcurrent := by
  cases op with
  | submit c bd ty un =>
    rcases addToQueue_snd_cases st c bd ty un t with ⟨he, _, _⟩ | he <;> rw [applyOp, he]
  | withdraw c => rfl
  | reserve c bd ty un =>
    rcases acquire_snd_cases st c bd ty un t with ⟨_, he⟩ | ⟨_, _, _, he⟩ <;> rw [applyOp, he]
  | release c success => exact release_maxConcurrent cbOk t st c success
  | procNext => exact processNext_maxConcurrent cbOk t st
  | watchdog =>
    exact checkStuckBuilds_preserve cbOk t (fun s => s.maxConcurrent = st.maxConcurrent)
      (fun s k hs => by simp only [release_maxConcurrent]; exact hs) st rfl
  | forceRel c =>
    show (forceRelease cbOk t st c).maxConcurrent = st.maxConcurrent
    rcases forceRelease_cases cbOk t st c with he | ⟨cid, _, he⟩ | he <;> rw [he] <;>
      simp [processNext_maxConcurrent]
  | clearQ => rfl
  | heartbeat c => exact updateActivity_maxConcurrent st c t

theorem applyOp_cap (cbOk : Nat → Bool) (t : Nat) (st : QState) (op : Op)
    (h : st.activeBuilds.length ≤ st.maxConcurrent) :
    (applyOp cbOk t st op).activeBuilds.length ≤ (applyOp cbOk t st op).maxConcurrent := by
  cases op with
  | submit c bd ty un =>
    rcases addToQueue_snd_cases st c bd ty un t with ⟨he, _, hlt⟩ | he <;> rw [applyOp, he]
    · simpa using hlt
    · exact h
  | withdraw c => exact h
  | reserve c bd ty un =>
    rcases acquire_snd_cases st c bd ty un t with ⟨_, he⟩ | ⟨_, _, hlt, he⟩ <;> rw [applyOp, he]
    · exact h
    · simpa using hlt
  | release c success => exact release_cap cbOk t st c success h
  | procNext => exact processNext_cap cbOk t st h
  | watchdog =>
    exact checkStuckBuilds_preserve cbOk t
      (fun s => s.activeBuilds.length ≤ s.maxConcurrent)
      (fun s k hs => release_cap cbOk t s k false hs) st h
  | forceRel c =>
    show (forceRelease cbOk t st c).activeBuilds.length ≤
      (forceRelease cbOk t st c).maxConcurrent
    rcases forceRelease_cases cbOk t st c with he | ⟨cid, _, he⟩ | he <;> rw [he]
    · exact processNext_cap cbOk t _ (Nat.zero_le _)
    · exact processNext_cap cbOk t _
        (le_trans ((eraseA_sublist st.activeBuilds cid).length_le) h)
    · exact h
  | clearQ => exact h
  | heartbeat c =>
    show (updateActivity st c t).activeBuilds.length ≤ (updateActivity st c t).maxConcurrent
    rw [updateActivity_length, updateActivity_maxConcurrent]
    exact h

theorem applyOp_queueIdsNodup (cbOk : Nat → Bool) (t : Nat) (st : QState) (op : Op)
    (h : queueIdsNodup st) : queueIdsNodup (applyOp cbOk t st op) := by
  have hsub : ∀ {q : List QueueItem}, q.Sublist st.queue → (q.map (·.chatId)).Nodup :=
    fun hs => h.sublist (hs.map (·.chatId))
  cases op with
  | submit c bd ty un =>
    rcases addToQueue_snd_cases st c bd ty un t with ⟨he, _, _⟩ | he <;> rw [applyOp, he]
    · exact hsub (removeFirst_sublist st.queue c)
    · unfold queueIdsNodup
      simp only
      have hnr : (removeFirst st.queue c).map (·.chatId) |>.Nodup :=
        hsub (removeFirst_sublist st.queue c)
      have hcnotin : c ∉ (removeFirst st.queue c).map (·.chatId) := not_mem_removeFirst h
      by_cases hp : isAdmin st c
      · rw [if_pos hp]
        have hperm := (insertPriority_perm (removeFirst st.queue c)
          (mkQueueItem t c bd ty un (isAdmin st c))).map (·.chatId)
        rw [hperm.nodup_iff]
        simp only [List.map_cons, List.nodup_cons]
        exact ⟨by simpa [mkQueueItem] using hcnotin, hnr⟩
      · rw [if_neg hp]
        simp only [List.map_append, List.map_cons, List.map_nil]
        rw [List.nodup_append]
        refine ⟨hnr, List.nodup_singleton _, ?_⟩
        intro a ha hb
        simp only [List.mem_singleton] at hb
        rw [hb] at ha
        exact hcnotin (by simpa [mkQueueItem] using ha)
  | withdraw c => exact hsub (removeFirst_sublist st.queue c)
  | reserve c bd ty un =>
    rcases acquire_snd_cases st c bd ty un t with ⟨_, he⟩ | ⟨_, _, _, he⟩ <;> rw [applyOp, he] <;>
      exact h
  | release c success => exact hsub (release_queue_sublist cbOk t st c success)
  | procNext => exact hsub (processNext_queue_sublist cbOk t st)
  | watchdog =>
    exact checkStuckBuilds_preserve cbOk t queueIdsNodup
      (fun s k hs => hs.sublist ((release_queue_sublist cbOk t s k false).map (·.chatId))) st h
  | forceRel c =>
    show queueIdsNodup (forceRelease cbOk t st c)
    rcases forceRelease_cases cbOk t st c with he | ⟨cid, _, he⟩ | he <;> rw [he]
    · exact hsub (processNext_queue_sublist cbOk t _)
    · exact hsub (processNext_queue_sublist cbOk t _)
    · exact h
  | clearQ => exact List.nodup_nil
  | heartbeat c =>
    show queueIdsNodup (updateActivity st c t)
    unfold queueIdsNodup
    rw [updateActivity_queue]
    exact h

theorem applyOp_good (cbOk : Nat → Bool) (t : Nat) (st : QState) (op : Op)
    (h : goodInv st) (hg : opGuard st op = true) : goodInv (applyOp cbOk t st op) := by
  cases op with
  | submit c bd ty un =>
    obtain ⟨h1, h2, h3⟩ := h
    have hnone : findA st.activeBuilds c = none := by
      have hfa : hasActive st c = false := by
        simp only [opGuard, Bool.not_eq_true'] at hg
        exact hg
      unfold hasActive at hfa
      exact Option.not_isSome_iff_eq_none.mp (by simp [hfa])
    have hq1 : queueIdsNodup (applyOp cbOk t st (Op.submit c bd ty un)) :=
      applyOp_queueIdsNodup cbOk t st _ h1
    rcases addToQueue_snd_cases st c bd ty un t with ⟨he, hfn, hlt⟩ | he
    · rw [applyOp] at hq1 ⊢
      rw [he] at hq1 ⊢
      refine ⟨hq1, ?_, ?_⟩
      · intro i hi
        simp only at hi ⊢
        have hiq : i ∈ st.queue := (removeFirst_sublist st.queue c).subset hi
        rw [findA_append_none (h2 i hiq)]
        refine findA_singleton_ne (fun heq => ?_) _
        refine @not_mem_removeFirst st.queue c h1 ?_
        have hmm : i.chatId ∈ (removeFirst st.queue c).map (·.chatId) :=
          List.mem_map_of_mem (·.chatId) hi
        rwa [← heq] at hmm
      · unfold activeKeysNodup
        simp only [List.map_append, List.map_cons, List.map_nil]
        rw [List.nodup_append]
        refine ⟨h3, List.nodup_singleton _, ?_⟩
        intro a ha hb
        simp only [List.mem_singleton] at hb
        rw [hb] at ha
        exact (findA_eq_none_iff _ _).1 hnone ha
    · rw [applyOp] at hq1 ⊢
      rw [he] at hq1 ⊢
      refine ⟨hq1, ?_, h3⟩
      intro i hi
      simp only at hi ⊢
      have hmem : i = mkQueueItem t c bd ty un (isAdmin st c) ∨ i ∈ removeFirst st.queue c := by
        by_cases hp : isAdmin st c
        · rw [if_pos hp] at hi
          have := (insertPriority_perm _ _).mem_iff.mp hi
          simpa using this
        · rw [if_neg hp] at hi
          rcases List.mem_append.1 hi with hia | hia
          · right; exact hia
          · left; simpa using hia
      rcases hmem with rfl | hmem
      · simpa [mkQueueItem] using hnone
      · exact h2 i ((removeFirst_sublist st.queue c).subset hmem)
  | withdraw c =>
    obtain ⟨h1, h2, h3⟩ := h
    refine ⟨applyOp_queueIdsNodup cbOk t st _ h1, ?_, h3⟩
    intro i hi
    exact h2 i ((removeFirst_sublist st.queue c).subset hi)
  | reserve c bd ty un =>
    obtain ⟨h1, h2, h3⟩ := h
    have hcq : c ∉ st.queue.map (·.chatId) := by
      simp only [opGuard, Bool.not_eq_true', decide_eq_false_iff_not] at hg
      exact hg
    rcases acquire_snd_cases st c bd ty un t with ⟨_, he⟩ | ⟨_, hfn, _, he⟩ <;> rw [applyOp, he]
    · exact ⟨h1, h2, h3⟩
    · refine ⟨h1, ?_, ?_⟩
      · intro i hi
        simp only at hi ⊢
        rw [findA_append_none (h2 i hi)]
        refine findA_singleton_ne (fun heq => ?_) _
        refine hcq ?_
        rw [heq]
        exact List.mem_map_of_mem (·.chatId) hi
      · unfold activeKeysNodup
        simp only [List.map_append, List.map_cons, List.map_nil]
        rw [List.nodup_append]
        refine ⟨h3, List.nodup_singleton _, ?_⟩
        intro a ha hb
        simp only [List.mem_singleton] at hb
        rw [hb] at ha
        exact (findA_eq_none_iff _ _).1 hfn ha
  | release c success => exact release_good cbOk t st c success h
  | procNext => exact processNext_good cbOk t st h
  | watchdog =>
    exact checkStuckBuilds_preserve cbOk t goodInv
      (fun s k hs => release_good cbOk t s k false hs) st h
  | forceRel c =>
    show goodInv (forceRelease cbOk t st c)
    rcases forceRelease_cases cbOk t st c with he | ⟨cid, _, he⟩ | he <;> rw [he]
    · exact processNext_good cbOk t _ (goodInv_clearActive st h)
    · exact processNext_good cbOk t _ (goodInv_erase st cid h)
    · exact h
  | clearQ =>
    obtain ⟨_, _, h3⟩ := h
    exact ⟨List.nodup_nil, fun i hi => absurd hi (List.not_mem_nil i), h3⟩
  | heartbeat c => exact updateActivity_good st c t h

/-! ### Trace induction -/

theorem traceStates_preserve (cbOk : Nat → Bool) (M : QState → Prop)
    (hstep : ∀ t st op, M st → M (applyOp cbOk t st op)) :
    ∀ (ops : List (Nat × Op)) (st : QState), M st →
      ∀ s ∈ traceStates cbOk st ops, M s := by
  intro ops
  induction ops with
  | nil =>
    intro st h s hs
    simp only [traceStates, List.mem_singleton] at hs
    rwa [hs]
  | cons p rest ih =>
    intro st h s hs
    rcases p with ⟨t, op⟩
    simp only [traceStates, List.mem_cons] at hs
    rcases hs with rfl | hs
    · exact h
    · exact ih _ (hstep t st op h) s hs

theorem traceStates_preserve_guarded (cbOk : Nat → Bool) (M : QState → Prop)
    (hstep : ∀ t st op, M st → opGuard st op = true → M (applyOp cbOk t st op)) :
    ∀ (ops : List (Nat × Op)) (st : QState), M st → traceGuarded cbOk st ops = true →
      ∀ s ∈ traceStates cbOk st ops, M s := by
  intro ops
  induction ops with
  | nil =>
    intro st h _ s hs
    simp only [traceStates, List.mem_singleton] at hs
    rwa [hs]
  | cons p rest ih =>
    intro st h hguard s hs
    rcases p with ⟨t, op⟩
    simp only [traceGuarded, Bool.and_eq_true] at hguard
    simp only [traceStates, List.mem_cons] at hs
    rcases hs with rfl | hs
    · exact h
    · exact ih _ (hstep t st op h hguard.1) hguard.2 s hs

/-! ### Remaining helper lemmas -/

theorem clampMaxConcurrent_bounds (e : Option Int) :
    1 ≤ clampMaxConcurrent e ∧ clampMaxConcurrent e ≤ 4 := by
  cases e with
  | none => decide
  | some n =>
    dsimp only [clampMaxConcurrent]
    by_cases h : n = 0
    · rw [if_pos h]
      decide
    · rw [if_neg h]
      constructor <;> omega

theorem insertPriority_bucketed {q : List QueueItem} (hq : IsBucketed q)
    {item : QueueItem} (hp : item.priority = true) :
    IsBucketed (insertPriority q item) := by
  unfold IsBucketed at hq ⊢
  induction q with
  | nil =>
    simp only [insertPriority]
    exact List.pairwise_singleton _ _
  | cons x rest ih =>
    rw [List.pairwise_cons] at hq
    by_cases hx : x.priority
    · simp only [insertPriority, if_pos hx]
      rw [List.pairwise_cons]
      refine ⟨?_, ih hq.2⟩
      intro y hy _
      exact hx
    · simp only [insertPriority, if_neg hx]
      rw [List.pairwise_cons]
      refine ⟨?_, ?_⟩
      · intro y hy hyp
        exact hp
      · rw [List.pairwise_cons]
        exact hq
    
theorem bucketed_append_nonprio {q : List QueueItem} (hq : IsBucketed q)
    {item : QueueItem} (hp : item.priority = false) :
    IsBucketed (q ++ [item]) := by
  unfold IsBucketed at hq ⊢
  rw [List.pairwise_append]
  refine ⟨hq, List.pairwise_singleton _ _, ?_⟩
  intro a _ b hb hbp
  simp only [List.mem_singleton] at hb
  rw [hb, hp] at hbp
  exact absurd hbp Bool.false_ne_true

/-- The successful promotion step of `processNext`, as an equation. -/
theorem processNext_promote (cbOk : Nat → Bool) (now : Nat) (st : QState)
    (nb : QueueItem) (rest : List QueueItem) (hq : st.queue = nb :: rest)
    (hb : isBusy st = false) (hnone : findA st.activeBuilds nb.chatId = none)
    (hcb : cbOk nb.chatId = true) :
    processNext cbOk now st =
      { st with queue := rest,
                activeBuilds := st.activeBuilds ++
                  [(nb.chatId, Build.mk now now nb.buildData nb.type nb.userName)] } := by
  have hlt : st.activeBuilds.length < st.maxConcurrent := by
    unfold isBusy at hb
    simp only [decide_eq_false_iff_not, not_le] at hb
    exact hb
  unfold processNext
  rw [hq]
  simp only [List.length_cons, processNextAux, hq]
  rw [if_neg (by rw [hb]; exact Bool.false_ne_true)]
  simp [acquire, hasActive, hnone, hcb, Nat.not_le.mpr hlt]

/-- The failed-promotion step of `processNext`: the popped head's identity is
already active, so it is pushed back and the state is unchanged. -/
theorem processNext_pushback (cbOk : Nat → Bool) (now : Nat) (st : QState)
    (nb : QueueItem) (rest : List QueueItem) (hq : st.queue = nb :: rest)
    (hb : isBusy st = false) (hsome : hasActive st nb.chatId = true) :
    processNext cbOk now st = st := by
  unfold processNext
  rw [hq]
  simp only [List.length_cons, processNextAux, hq]
  rw [if_neg (by rw [hb]; exact Bool.false_ne_true)]
  unfold hasActive at hsome
  simp [acquire, hasActive, hsome]

/-- Releasing a list of flagged builds (pairwise-distinct identities, all
active, none queued) after the watchdog scan: each is counted as exactly one
failure, each leaves the registry, and everything else is untouched. -/
theorem fold_forced_release (now : Nat) :
    ∀ (F : List (Nat × Build)) (s : QState),
      (F.map Prod.fst).Nodup →
      (∀ p ∈ F, findA s.activeBuilds p.1 = some p.2) →
      (∀ p ∈ F, p.1 ∉ s.queue.map (·.chatId)) →
      ((F.foldl (fun a p => release (fun _ => true) now a p.1 false) s).stats.failed =
          s.stats.failed + F.length ∧
       (F.foldl (fun a p => release (fun _ => true) now a p.1 false) s).stats.success =
          s.stats.success ∧
       (F.foldl (fun a p => release (fun _ => true) now a p.1 false) s).stats.totalTime =
          s.stats.totalTime ∧
       (F.foldl (fun a p => release (fun _ => true) now a p.1 false) s).stats.total =
          s.stats.total ∧
       (∀ p ∈ F, findA
          (F.foldl (fun a p => release (fun _ => true) now a p.1 false) s).activeBuilds p.1 =
          none) ∧
       (∀ k b, findA s.activeBuilds k = some b → k ∉ F.map Prod.fst →
         findA (F.foldl (fun a p => release (fun _ => true) now a p.1 false) s).activeBuilds k =
           some b) ∧
       (∀ k, findA s.activeBuilds k = none → k ∉ s.queue.map (·.chatId) →
         findA (F.foldl (fun a p => release (fun _ => true) now a p.1 false) s).activeBuilds k =
           none) ∧
       (∀ k, k ∈ (F.foldl (fun a p => release (fun _ => true) now a p.1 false) s).queue.map
           (·.chatId) → k ∈ s.queue.map (·.chatId))) := by
  intro F
  induction F with
  | nil =>
    intro s _ _ _
    exact ⟨by simp, rfl, rfl, rfl, by simp, fun k b h _ => h, fun k h _ => h, fun k h => h⟩
  | cons p F2 ih =>
    intro s hnd hmem hq
    rw [List.map_cons, List.nodup_cons] at hnd
    have hp : findA s.activeBuilds p.1 = some p.2 := hmem p (List.mem_cons_self p F2)
    have hpq : p.1 ∉ s.queue.map (·.chatId) := hq p (List.mem_cons_self p F2)
    have hqsub : ∀ k, k ∈ (release (fun _ => true) now s p.1 false).queue.map (·.chatId) →
        k ∈ s.queue.map (·.chatId) := by
      intro k hk
      exact ((release_queue_sublist (fun _ => true) now s p.1 false).map (·.chatId)).subset hk
    have hstats : (release (fun _ => true) now s p.1 false).stats =
        { s.stats with failed := s.stats.failed + 1 } := release_T_stats_failed now s hp
    have hne2 : ∀ p2 ∈ F2, p2.1 ≠ p.1 := by
      intro p2 hp2 he
      exact hnd.1 (he ▸ List.mem_map_of_mem Prod.fst hp2)
    obtain ⟨ih1, ih2, ih3, ih4, ih5, ih6, ih7, ih8⟩ :=
      ih (release (fun _ => true) now s p.1 false) hnd.2
        (fun p2 hp2 =>
          release_T_findA_some_ne now s (hne2 p2 hp2) (hmem p2 (List.mem_cons_of_mem p hp2)))
        (fun p2 hp2 hk => hq p2 (List.mem_cons_of_mem p hp2) (hqsub _ hk))
    simp only [List.foldl_cons]
    refine ⟨?_, ?_, ?_, ?_, ?_, ?_, ?_, ?_⟩
    · rw [ih1, hstats]
      simp only [List.length_cons]
      omega
    · rw [ih2, hstats]
    · rw [ih3, hstats]
    · rw [ih4, hstats]
    · intro p2 hp2
      rcases List.mem_cons.1 hp2 with rfl | hp2
      · refine ih7 p2.1 ?_ ?_
        · exact release_self_none (fun _ => true) now s hp hpq false
        · intro hk
          exact hpq (hqsub _ hk)
      · exact ih5 p2 hp2
    · intro k b hkb hknotin
      simp only [List.map_cons, List.mem_cons] at hknotin
      push_neg at hknotin
      exact ih6 k b (release_T_findA_some_ne now s hknotin.1 hkb) hknotin.2
    · intro k h1 h2
      refine ih7 k (release_active_none (fun _ => true) now s p.1 false h1 h2) ?_
      intro hk
      exact h2 (hqsub _ hk)
    · intro k hk
      exact hqsub _ (ih8 _ hk)

/-! ### Claim theorems -/

/-- Claim C2: for every sequence of public operations from a fresh instance
(in particular every sequence of submit/release calls), at every point the
number of active builds is at most `maxConcurrent`, and `maxConcurrent` is
the configured value clamped into `[1,4]` (any missing, non-numeric or
out-of-range configuration still yields a value in that range). -/
theorem C2_capacity_invariant (envMax : Option Int) (admins : List Nat) (cbOk : Nat → Bool)
    (ops : List (Nat × Op)) :
    (1 ≤ (initState envMax admins).maxConcurrent ∧
      (initState envMax admins).maxConcurrent ≤ 4) ∧
    ∀ s ∈ traceStates cbOk (initState envMax admins) ops,
      s.activeBuilds.length ≤ s.maxConcurrent ∧
      s.maxConcurrent = clampMaxConcurrent envMax := by
  constructor
  · exact clampMaxConcurrent_bounds envMax
  · refine traceStates_preserve cbOk
      (fun s => s.activeBuilds.length ≤ s.maxConcurrent ∧
        s.maxConcurrent = clampMaxConcurrent envMax)
      ?_ ops (initState envMax admins) ⟨Nat.zero_le _, rfl⟩
    intro t st op h
    exact ⟨applyOp_cap cbOk t st op h.1, (applyOp_maxConcurrent cbOk t st op).trans h.2⟩

/-- Claim C8: persisting and then loading yields an admission queue and
statistics equal to the pre-save values; active builds are absent from the
persisted document (loading into a fresh instance leaves the registry
empty); a missing or corrupt file (`none`) loads as the unchanged (empty)
state without failing. -/
theorem C8_persistence_roundtrip (st base : QState) (now : Nat) (envMax : Option Int)
    (admins : List Nat) :
    (load base (some (save st now))).queue = st.queue ∧
    (load base (some (save st now))).stats = st.stats ∧
    (load (initState envMax admins) (some (save st now))).activeBuilds = [] ∧
    load base none = base :=
  ⟨rfl, rfl, rfl, rfl⟩

/-- Claim C9: for every queue position, the estimated wait in minutes equals
`max(1, ceil(effectivePositionAhead * avgMinutes / maxConcurrent))`, where
`effectivePositionAhead = max(0, position - (maxConcurrent - activeCount))`
and `avgMinutes` is the cumulative successful duration divided by the
success count (converted from milliseconds to rounded minutes) when there
are successes, and the fixed fallback of 3 minutes otherwise. -/
theorem C9_wait_estimate (st : QState) (p : Nat) :
    getEstimatedWait st p =
      specEstimatedWait st.maxConcurrent st.activeBuilds.length st.stats p := by
  have havg : ((st.stats.totalTime : ℚ) / (st.stats.success : ℚ) / 1000 / 60) =
      (st.stats.totalTime : ℚ) / (((60000 * st.stats.success : Nat)) : ℚ) := by
    push_cast
    rw [div_div, div_div]
    congr 1
    ring
  unfold getEstimatedWait specEstimatedWait specAvgMinutes
  dsimp only
  rw [havg]

/-- Claim C4: releasing an active identity computes
`duration = now - startedAt`, updates the statistics (success increments the
success counter and adds the duration to the cumulative duration; failure
increments only the failure counter), removes the active build, and then
invokes `processNext` exactly once (the result is exactly `processNext` of
the updated state). -/
theorem C4_release_updates_and_drains (cbOk : Nat → Bool) (now : Nat) (st : QState)
    (c : Nat) (succ : Bool) (b : Build) (hb : findA st.activeBuilds c = some b) :
    release cbOk now st c succ =
      processNext cbOk now
        { st with
            stats :=
              if succ then
                { st.stats with success := st.stats.success + 1,
                                totalTime := st.stats.totalTime + (now - b.startTime) }
              else { st.stats with failed := st.stats.failed + 1 },
            activeBuilds := eraseA st.activeBuilds c } := by
  rw [release_eq_some hb, releaseCore_eq_some hb]

/-- Witness for claim C4 at a concrete state: identity 7 active since 100,
released successfully at 500. -/
theorem C4_release_updates_and_drains_witness :
    release cbAlways 500 c4State 7 true =
      processNext cbAlways 500
        { c4State with
            stats :=
              if true then
                { c4State.stats with success := c4State.stats.success + 1,
                                     totalTime := c4State.stats.totalTime +
                                       (500 - (Build.mk 100 100 0 "url" "A").startTime) }
              else { c4State.stats with failed := c4State.stats.failed + 1 },
            activeBuilds := eraseA c4State.activeBuilds 7 } :=
  C4_release_updates_and_drains cbAlways 500 c4State 7 true
    (Build.mk 100 100 0 "url" "A") (by decide)

/-- Claim C3: while at capacity, `addToQueue` places a priority request
immediately before the first non-priority entry of the (withdraw-adjusted)
queue — at the end if every entry is priority — and appends a non-priority
request at the end; the two-bucket shape of the queue is preserved; and
submitting A(priority), B, C(priority), D in that order while at capacity
yields the queue order A, C, B, D. -/
theorem C3_priority_insertion (st : QState) (c bd : Nat) (ty un : String) (now : Nat)
    (hbusy : isBusy st = true) (hbuck : IsBucketed st.queue) :
    ((addToQueue st c bd ty un now).2.queue =
      (if isAdmin st c then
        (removeFirst st.queue c).takeWhile (·.priority) ++
          mkQueueItem now c bd ty un (isAdmin st c) ::
            (removeFirst st.queue c).dropWhile (·.priority)
      else removeFirst st.queue c ++ [mkQueueItem now c bd ty un (isAdmin st c)])) ∧
    IsBucketed (addToQueue st c bd ty un now).2.queue ∧
    c3Final.queue.map (·.chatId) = [1, 3, 2, 4] := by
  have hq0 : IsBucketed (removeFirst st.queue c) :=
    List.Pairwise.sublist (removeFirst_sublist st.queue c) hbuck
  rcases addToQueue_snd_cases st c bd ty un now with ⟨_, _, hlt⟩ | he
  · exfalso
    unfold isBusy at hbusy
    simp only [decide_eq_true_eq] at hbusy
    omega
  · rw [he]
    refine ⟨?_, ?_, by decide⟩
    · simp only
      by_cases hp : isAdmin st c
      · rw [if_pos hp, if_pos hp, insertPriority_eq_takeDrop]
      · rw [if_neg hp, if_neg hp]
    · simp only
      by_cases hp : isAdmin st c
      · rw [if_pos hp]
        refine insertPriority_bucketed hq0 ?_
        simp only [mkQueueItem]
        exact hp
      · rw [if_neg hp]
        refine bucketed_append_nonprio hq0 ?_
        simp only [mkQueueItem]
        exact Bool.not_eq_true _ |>.mp hp

/-- Witness for claim C3: a non-priority submission while at capacity, and
the concrete A, C, B, D scenario. -/
theorem C3_priority_insertion_witness :
    ((addToQueue c3Busy 5 0 "url" "E" 50).2.queue =
      (if isAdmin c3Busy 5 then
        (removeFirst c3Busy.queue 5).takeWhile (·.priority) ++
          mkQueueItem 50 5 0 "url" "E" (isAdmin c3Busy 5) ::
            (removeFirst c3Busy.queue 5).dropWhile (·.priority)
      else removeFirst c3Busy.queue 5 ++ [mkQueueItem 50 5 0 "url" "E" (isAdmin c3Busy 5)])) ∧
    IsBucketed (addToQueue c3Busy 5 0 "url" "E" 50).2.queue ∧
    c3Final.queue.map (·.chatId) = [1, 3, 2, 4] :=
  C3_priority_insertion c3Busy 5 0 "url" "E" 50 (by decide) (by decide)

/-- Claim C5 counterexample: from a fresh instance (capacity 1), submitting
identity 7, then submitting 7 again while its build is active, leaves 7 both
active and queued; from that state two consecutive `release(7, true)` calls
update the success counter twice and the second call is not a no-op, because
the first release's `processNext` re-promotes 7's queued duplicate. -/
theorem C5_counterexample :
    (release (fun _ => true) 300 dualState 7 true).stats.success = 1 ∧
    (release (fun _ => true) 400
        (release (fun _ => true) 300 dualState 7 true) 7 true).stats.success = 2 ∧
    release (fun _ => true) 400 (release (fun _ => true) 300 dualState 7 true) 7 true ≠
      release (fun _ => true) 300 dualState 7 true := by decide

/-- Claim C5 (amended): for every identity not present in the registry —
queued or not — `release` is a no-op (queue, registry, all four counters
unchanged and `processNext` not invoked — the state is returned unchanged);
and provided the identity is not simultaneously present in the admission
queue, calling `release(identity, true)` twice in a row affects statistics
and the registry only once — the second call is a safe no-op. -/
theorem C5_release_inactive_noop (cbOk : Nat → Bool) (now now2 : Nat) (st : QState)
    (c : Nat) (succ : Bool) :
    (findA st.activeBuilds c = none → release cbOk now st c succ = st) ∧
    (c ∉ st.queue.map (·.chatId) →
      release cbOk now2 (release cbOk now st c true) c true =
        release cbOk now st c true) := by
  constructor
  · intro hn
    exact release_eq_none hn cbOk now succ
  · intro hq
    cases hf : findA st.activeBuilds c with
    | none => rw [release_eq_none hf, release_eq_none hf]
    | some b =>
      exact release_eq_none (release_self_none cbOk now st hf hq true) cbOk now2 true

/-- Witness for the amended claim C5 at a concrete state: identity 7 active,
nothing queued. -/
theorem C5_release_inactive_noop_witness :
    (findA c5State.activeBuilds 7 = none →
      release cbAlways 2000 c5State 7 true = c5State) ∧
    release cbAlways 3000 (release cbAlways 2000 c5State 7 true) 7 true =
      release cbAlways 2000 c5State 7 true :=
  ⟨(C5_release_inactive_noop cbAlways 2000 3000 c5State 7 true).1,
   (C5_release_inactive_noop cbAlways 2000 3000 c5State 7 true).2 (by decide)⟩

/-- Claim C1 counterexample: submitting an identity that is currently active
(capacity 1, fresh instance) enqueues it while it stays active, so the same
identity is simultaneously in the admission queue and in the slot
registry. -/
theorem C1_counterexample :
    hasActive dualState 7 = true ∧ 7 ∈ dualState.queue.map (·.chatId) := by decide

/-- Claim C1 (amended): no identity ever appears twice in the admission
queue, for every operation sequence; and provided `submit` is never invoked
for a currently active identity and `reserve` never for a currently queued
identity (`opGuard`), no identity is ever simultaneously queued and active
either, at every point of the trace. -/
theorem C1_no_dual_occupancy (cbOk : Nat → Bool) (st : QState) (ops : List (Nat × Op))
    (h0 : goodInv st) :
    (∀ s ∈ traceStates cbOk st ops, queueIdsNodup s) ∧
    (traceGuarded cbOk st ops = true →
      ∀ s ∈ traceStates cbOk st ops, queueIdsNodup s ∧ noDualOccupancy s) := by
  constructor
  · exact traceStates_preserve cbOk queueIdsNodup
      (fun t st2 op h => applyOp_queueIdsNodup cbOk t st2 op h) ops st h0.1
  · intro hguard
    have hall := traceStates_preserve_guarded cbOk goodInv
      (fun t st2 op h hg => applyOp_good cbOk t st2 op h hg) ops st h0 hguard
    intro s hs
    exact ⟨(hall s hs).1, (hall s hs).2.1⟩

/-- Witness for the amended claim C1 on a concrete guarded trace from a
fresh instance. -/
theorem C1_no_dual_occupancy_witness :
    (∀ s ∈ traceStates cbAlways (initState (some 2) []) c1Ops, queueIdsNodup s) ∧
    (traceGuarded cbAlways (initState (some 2) []) c1Ops = true →
      ∀ s ∈ traceStates cbAlways (initState (some 2) []) c1Ops,
        queueIdsNodup s ∧ noDualOccupancy s) :=
  C1_no_dual_occupancy cbAlways (initState (some 2) []) c1Ops (by decide)

/-- Claim C7: with capacity 1, releasing the single active build while `n ≥ 1`
requests are queued promotes exactly the queue head to an active build (the
queue shrinks by exactly one); and whenever slot reservation for the popped
head fails (its identity is already active), the request is pushed back onto
the front of the queue and `processNext` returns with the state unchanged,
without retrying. -/
theorem C7_drain_step (now : Nat) (st : QState) (c : Nat) (b : Build)
    (hItem : QueueItem) (rest : List QueueItem) (succ : Bool)
    (cbOk : Nat → Bool) (st2 : QState) (h2 : QueueItem) (rest2 : List QueueItem)
    (hm : st.maxConcurrent = 1) (hact : st.activeBuilds = [(c, b)])
    (hq : st.queue = hItem :: rest)
    (hq2 : st2.queue = h2 :: rest2) (hb2 : isBusy st2 = false)
    (ha2 : hasActive st2 h2.chatId = true) :
    ((release (fun _ => true) now st c succ).activeBuilds =
        [(hItem.chatId, Build.mk now now hItem.buildData hItem.type hItem.userName)] ∧
     (release (fun _ => true) now st c succ).queue = rest) ∧
    processNext cbOk now st2 = st2 := by
  constructor
  · have hfb : findA st.activeBuilds c = some b := by
      rw [hact]
      simp [findA]
    have hea : eraseA st.activeBuilds c = [] := by
      rw [hact]
      simp [eraseA]
    rw [release_eq_some hfb, releaseCore_eq_some hfb, hea]
    rw [processNext_promote (fun _ => true) now _ hItem rest (by simpa using hq)
      (by simp [isBusy, hm]) (by simp [findA]) rfl]
    constructor
    · simp
    · rfl
  · exact processNext_pushback cbOk now st2 h2 rest2 hq2 hb2 ha2

/-- Witness for claim C7: identity 7 active with identity 8 queued
(capacity 1), and the push-back case where the queue head's identity 7 is
already active (capacity 2). -/
theorem C7_drain_step_witness :
    ((release (fun _ => true) 600 c7State 7 true).activeBuilds =
        [((mkQueueItem 5 8 0 "url" "Q" false).chatId,
          Build.mk 600 600 (mkQueueItem 5 8 0 "url" "Q" false).buildData
            (mkQueueItem 5 8 0 "url" "Q" false).type
            (mkQueueItem 5 8 0 "url" "Q" false).userName)] ∧
     (release (fun _ => true) 600 c7State 7 true).queue = []) ∧
    processNext cbAlways 600 c7DupState = c7DupState :=
  C7_drain_step 600 c7State 7 (Build.mk 10 10 0 "url" "R")
    (mkQueueItem 5 8 0 "url" "Q" false) [] true cbAlways c7DupState
    (mkQueueItem 5 7 0 "url" "Q" false) [] (by decide) (by decide) (by decide)
    (by decide) (by decide) (by decide)

/-- Claim C10: an administrative `forceRelease(identity)` removes the job
from the registry and triggers `processNext`, and `forceRelease` with no
identity clears all active builds and triggers `processNext`; in both cases
all four statistics counters are unchanged — unlike a watchdog-forced
release, an admin force-release is not counted as a failure. -/
theorem C10_force_release_frame (now : Nat) (st : QState) (c : Nat)
    (hc : c ≠ 0) (b : Build) (hact : findA st.activeBuilds c = some b)
    (hcq : c ∉ st.queue.map (·.chatId)) :
    (forceRelease (fun _ => true) now st (some c) =
      processNext (fun _ => true) now
        { st with activeBuilds := eraseA st.activeBuilds c }) ∧
    (forceRelease (fun _ => true) now st (some c)).stats = st.stats ∧
    findA (forceRelease (fun _ => true) now st (some c)).activeBuilds c = none ∧
    (forceRelease (fun _ => true) now st none =
      processNext (fun _ => true) now { st with activeBuilds := [] }) ∧
    (forceRelease (fun _ => true) now st none).stats = st.stats := by
  have hha : hasActive st c = true := by
    unfold hasActive
    rw [hact]
    rfl
  have he := forceRelease_some_active hc hha (fun _ => true) now
  refine ⟨he, ?_, ?_, forceRelease_none_eq _ now st, ?_⟩
  · rw [he, processNext_T_stats]
  · rw [he]
    refine processNext_active_none _ now _ ?_ ?_
    · exact findA_eraseA_self _ _
    · exact hcq
  · rw [forceRelease_none_eq, processNext_T_stats]

/-- Witness for claim C10: force-releasing active identity 7 while identity 8
is queued. -/
theorem C10_force_release_frame_witness :
    (forceRelease (fun _ => true) 700 c7State (some 7) =
      processNext (fun _ => true) 700
        { c7State with activeBuilds := eraseA c7State.activeBuilds 7 }) ∧
    (forceRelease (fun _ => true) 700 c7State (some 7)).stats = c7State.stats ∧
    findA (forceRelease (fun _ => true) 700 c7State (some 7)).activeBuilds 7 = none ∧
    (forceRelease (fun _ => true) 700 c7State none =
      processNext (fun _ => true) 700 { c7State with activeBuilds := [] }) ∧
    (forceRelease (fun _ => true) 700 c7State none).stats = c7State.stats :=
  C10_force_release_frame 700 c7State 7 (by decide) (Build.mk 10 10 0 "url" "R")
    (by decide) (by decide)

/-- Claim C6: on a watchdog sweep, an active build is flagged exactly when
its total time exceeds the maximum-runtime budget or its inactivity exceeds
the inactivity budget (`isStuck`); after the scan completes, every flagged
build has been released as a failure (slot freed, failure counter increased
by exactly the number of flagged builds), and only those — unflagged builds
stay in the registry untouched and the other counters are unchanged.
Stated for the production callback oracle on states satisfying the
reachable-state invariant (registry keys unique, queued identities not
active). -/
theorem C6_watchdog_recovery (now : Nat) (st : QState)
    (hkeys : (st.activeBuilds.map Prod.fst).Nodup)
    (hdisj : ∀ p ∈ st.activeBuilds, p.1 ∉ st.queue.map (·.chatId)) :
    (∀ p ∈ st.activeBuilds, isStuck now p.2 = true →
      findA (checkStuckBuilds (fun _ => true) now st).activeBuilds p.1 = none) ∧
    (∀ p ∈ st.activeBuilds, isStuck now p.2 = false →
      findA (checkStuckBuilds (fun _ => true) now st).activeBuilds p.1 = some p.2) ∧
    (checkStuckBuilds (fun _ => true) now st).stats.failed =
      st.stats.failed + (st.activeBuilds.filter (fun p => isStuck now p.2)).length ∧
    (checkStuckBuilds (fun _ => true) now st).stats.success = st.stats.success ∧
    (checkStuckBuilds (fun _ => true) now st).stats.totalTime = st.stats.totalTime ∧
    (checkStuckBuilds (fun _ => true) now st).stats.total = st.stats.total := by
  by_cases hempty : st.activeBuilds.length = 0
  · have hnil : st.activeBuilds = [] := List.length_eq_zero.1 hempty
    have hcs : checkStuckBuilds (fun _ => true) now st = st := by
      unfold checkStuckBuilds
      rw [if_pos hempty]
    rw [hcs, hnil]
    simp
  · have hcs : checkStuckBuilds (fun _ => true) now st =
        (st.activeBuilds.filter (fun p => isStuck now p.2)).foldl
          (fun s p => release (fun _ => true) now s p.1 false) st := by
      unfold checkStuckBuilds
      rw [if_neg hempty]
    have hFnd : ((st.activeBuilds.filter (fun p => isStuck now p.2)).map Prod.fst).Nodup :=
      hkeys.sublist ((List.filter_sublist _).map Prod.fst)
    have hFmem : ∀ p ∈ st.activeBuilds.filter (fun p => isStuck now p.2),
        findA st.activeBuilds p.1 = some p.2 := by
      intro p hp
      exact findA_of_mem_nodup hkeys (List.mem_of_mem_filter hp)
    have hFq : ∀ p ∈ st.activeBuilds.filter (fun p => isStuck now p.2),
        p.1 ∉ st.queue.map (·.chatId) := by
      intro p hp
      exact hdisj p (List.mem_of_mem_filter hp)
    obtain ⟨f1, f2, f3, f4, f5, f6, f7, f8⟩ :=
      fold_forced_release now (st.activeBuilds.filter (fun p => isStuck now p.2)) st
        hFnd hFmem hFq
    rw [hcs]
    refine ⟨?_, ?_, f1, f2, f3, f4⟩
    · intro p hp hstuck
      exact f5 p (List.mem_filter.2 ⟨hp, hstuck⟩)
    · intro p hp hnstuck
      refine f6 p.1 p.2 (findA_of_mem_nodup hkeys hp) ?_
      intro hin
      rcases List.mem_map.1 hin with ⟨p2, hp2, hfst⟩
      have hstuck2 : isStuck now p2.2 = true := (List.mem_filter.1 hp2).2
      have heq2 : p2.2 = p.2 := by
        have h1 := findA_of_mem_nodup hkeys (List.mem_of_mem_filter hp2)
        rw [hfst] at h1
        have h2 := findA_of_mem_nodup hkeys hp
        rw [h1] at h2
        exact Option.some.inj h2
      rw [heq2] at hstuck2
      rw [hstuck2] at hnstuck
      simp at hnstuck

/-- Witness for claim C6: identity 7 has been inactive longer than the
inactivity budget at time `602000`, so the tick releases it as a failure. -/
theorem C6_watchdog_recovery_witness :
    (∀ p ∈ c6State.activeBuilds, isStuck 602000 p.2 = true →
      findA (checkStuckBuilds (fun _ => true) 602000 c6State).activeBuilds p.1 = none) ∧
    (∀ p ∈ c6State.activeBuilds, isStuck 602000 p.2 = false →
      findA (checkStuckBuilds (fun _ => true) 602000 c6State).activeBuilds p.1 = some p.2) ∧
    (checkStuckBuilds (fun _ => true) 602000 c6State).stats.failed =
      c6State.stats.failed +
        (c6State.activeBuilds.filter (fun p => isStuck 602000 p.2)).length ∧
    (checkStuckBuilds (fun _ => true) 602000 c6State).stats.success =
      c6State.stats.success ∧
    (checkStuckBuilds (fun _ => true) 602000 c6State).stats.totalTime =
      c6State.stats.totalTime ∧
    (checkStuckBuilds (fun _ => true) 602000 c6State).stats.total =
      c6State.stats.total :=
  C6_watchdog_recovery 602000 c6State (by decide) (by decide)
